import Mathlib

/-
Verification of the badgeapp rendering + pagination pipeline.

Shallow embedding of the core of the repository:
  - src/models/badge_config.py   (FieldPlacement, BadgeConfig)
  - src/models/csv_data.py       (CSVData.get_value, row_count)
  - src/utils/image_utils.py     (compute_scale_factor, image_to_canvas, canvas_to_image)
  - src/export/badge_renderer.py (_draw_field auto-shrink loop, anchor map, render_badge)
  - src/export/pdf_export.py     (grid layout and the export loop of export_pdf)
  - src/web/app.py               (run_export closure of start_pdf_export)

Python ints are modelled as ℤ (ℕ for loop counters that range over
list indices), Python floats as ℚ (all the arithmetic involved is exact
field arithmetic, so ℚ is a faithful carrier), Python strings as String,
Python dicts of strings as association lists.  PIL images are modelled as
records carrying their dimensions, a base description and the list of
drawing operations applied to them; object identity and in-place mutation
are modelled with an explicit heap (a list of images addressed by index),
so that frame conditions (what a call does and does not mutate) are real
statements.  The PIL text-measurement primitive (draw.textbbox) is an
external collaborator and enters as an uninterpreted function from font
size to measured width.
-/

namespace BadgeApp

/-- FieldPlacement from src/models/badge_config.py: one text field positioned
on the badge.  Field names and order follow the Python dataclass. -/
structure FieldPlacement where
  csv_column : String
  x : ℚ
  y : ℚ
  font_family : String
  font_size : ℤ
  font_color : String
  bold : Bool
  italic : Bool
  alignment : String
  max_width : ℤ
deriving DecidableEq

/-- BadgeConfig from src/models/badge_config.py: the badge template.
JSON persistence is out of scope; the data fields are kept. -/
structure BadgeConfig where
  background_image_path : String
  badge_width : ℤ
  badge_height : ℤ
  fields : List FieldPlacement
  badges_per_row : ℤ
  badges_per_col : ℤ
  page_size : String
  margin_mm : ℚ
  spacing_mm : ℚ

/-- CSVData from src/models/csv_data.py: loaded headers and rows.  A Python
dict row is modelled as an association list (unique keys, first match wins,
exactly the dict lookup discipline).  load and save are file I/O and out of
scope. -/
structure CSVData where
  headers : List String
  rows : List (List (String × String))

/-- CSVData.row_count property. -/
def CSVData.row_count (csv : CSVData) : ℕ := csv.rows.length

/-- CSVData.get_value from src/models/csv_data.py:
returns the cell value, with the empty string for a missing column
(dict.get(column, "")) and for an out-of-range row index
(the guard 0 <= row_index < len(self.rows)). -/
def CSVData.get_value (csv : CSVData) (row_index : ℤ) (column : String) : String :=
  if 0 ≤ row_index ∧ row_index < (csv.rows.length : ℤ) then
    (((csv.rows.getD row_index.toNat []).lookup column).getD "")
  else ""

/-- compute_scale_factor from src/utils/image_utils.py: uniform scale factor
to fit an image within canvas bounds, returning 1.0 when either image
dimension is non-positive (the division guard). -/
def compute_scale_factor (image_width image_height canvas_width canvas_height : ℤ) : ℚ :=
  if image_width ≤ 0 ∨ image_height ≤ 0 then 1
  else
    let scale_x : ℚ := (canvas_width : ℚ) / (image_width : ℚ)
    let scale_y : ℚ := (canvas_height : ℚ) / (image_height : ℚ)
    min scale_x scale_y

/-- image_to_canvas from src/utils/image_utils.py: image (template) space to
canvas (display) space. -/
def image_to_canvas (x y scale offset_x offset_y : ℚ) : ℚ × ℚ :=
  (x * scale + offset_x, y * scale + offset_y)

/-- canvas_to_image from src/utils/image_utils.py: canvas (display) space
back to image (template) space, returning (0, 0) when scale is zero. -/
def canvas_to_image (cx cy scale offset_x offset_y : ℚ) : ℚ × ℚ :=
  if scale = 0 then (0, 0)
  else ((cx - offset_x) / scale, (cy - offset_y) / scale)

/-- The auto-shrink loop of _draw_field in src/export/badge_renderer.py:

    while text_width > fp.max_width and effective_size > 8:
        effective_size -= 1
        (reload font, re-measure text_width)

measure gives the measured text width at a font size (the PIL textbbox
width for the fixed text being drawn).  Returns the final effective size
together with the number of loop iterations executed. -/
def shrink (measure : ℤ → ℤ) (max_width : ℤ) (size : ℤ) : ℤ × ℕ :=
  if h : measure size > max_width ∧ size > 8 then
    ((shrink measure max_width (size - 1)).1, (shrink measure max_width (size - 1)).2 + 1)
  else (size, 0)
termination_by (size - 8).toNat
decreasing_by
  simp_wf
  omega

/-- The effective font size computed by _draw_field before drawing: the
auto-shrink loop runs only when fp.max_width > 0. -/
def effective_size (measure : ℤ → ℤ) (fp : FieldPlacement) : ℤ :=
  if fp.max_width > 0 then (shrink measure fp.max_width fp.font_size).1 else fp.font_size

/-- anchor_map from _draw_field in src/export/badge_renderer.py. -/
def anchor_map : List (String × String) :=
  [("left", "lt"), ("center", "mt"), ("right", "rt")]

/-- The anchor chosen by _draw_field: anchor_map.get(fp.alignment, "mt"). -/
def anchor_for (alignment : String) : String :=
  (anchor_map.lookup alignment).getD "mt"

/-- One draw.text call recorded on a canvas: position, text, fill color,
the effective font size used, and the anchor string. -/
structure DrawOp where
  x : ℚ
  y : ℚ
  text : String
  fill : String
  fontSize : ℤ
  anchor : String
deriving DecidableEq

/-- A PIL image: dimensions, a base description (white fill, decoded file,
or copy provenance is irrelevant, only the drawing operations matter for
the claims), and the ordered list of draw.text operations applied to it. -/
structure Image where
  width : ℤ
  height : ℤ
  base : String
  ops : List DrawOp
deriving DecidableEq

/-- The default image used only as the fallback of list indexing. -/
def blankImage : Image := ⟨0, 0, "", []⟩

/-- Object allocation: PIL constructors (Image.new, Image.open, copy,
resize) create a fresh object.  The heap is a list of images addressed by
index; allocation appends and returns the fresh address. -/
def allocImage (heap : List Image) (img : Image) : List Image × ℕ :=
  (heap ++ [img], heap.length)

/-- In-place mutation performed by ImageDraw.Draw(badge) / draw.text:
appends one draw operation to the image at the given address. -/
def drawText (heap : List Image) (ref : ℕ) (op : DrawOp) : List Image :=
  heap.set ref (let img := heap.getD ref blankImage
                { img with ops := img.ops ++ [op] })

/-- Model of _draw_field from src/export/badge_renderer.py.  Returns early when the
text is empty; otherwise computes the effective font size (auto-shrink when
max_width > 0), picks the anchor from the alignment, and draws the text onto
the badge canvas at (fp.x, fp.y) with fp.font_color.  The heap and the
FieldPlacement are threaded through explicitly so that the function's frame
(what it mutates) is part of its result: the returned FieldPlacement is the
state of fp after the call. -/
def _draw_field (measure : String → ℤ → ℤ) (heap : List Image) (badgeRef : ℕ)
    (fp : FieldPlacement) (text : String) : List Image × FieldPlacement :=
  if text = "" then (heap, fp)
  else
    let size := effective_size (measure text) fp
    let anchor := anchor_for fp.alignment
    (drawText heap badgeRef ⟨fp.x, fp.y, text, fp.font_color, size, anchor⟩, fp)

/-- render_badge from src/export/badge_renderer.py.  The optional
pre-decoded background is an address into the heap; when present the code
does badge = background.copy() followed by badge = badge.resize(...), both
of which allocate fresh images.  Without it, the template's own background
path is decoded (a fresh image; decode failure degrades to blank white), or
a blank white canvas is allocated.  Then every field is drawn in order with
the value resolved from the CSV row.  Returns the final heap and the
address of the rendered badge. -/
def render_badge (measure : String → ℤ → ℤ) (config : BadgeConfig)
    (csv : CSVData) (row_index : ℤ) (heap : List Image)
    (background : Option ℕ) : List Image × ℕ :=
  let allocated :=
    match background with
    | some bg =>
        let copied := allocImage heap (heap.getD bg blankImage)
        allocImage copied.1
          { copied.1.getD copied.2 blankImage with
              width := config.badge_width, height := config.badge_height }
    | none =>
        if config.background_image_path ≠ "" then
          allocImage heap
            ⟨config.badge_width, config.badge_height,
             "file:" ++ config.background_image_path, []⟩
        else
          allocImage heap ⟨config.badge_width, config.badge_height, "white", []⟩
  let badgeRef := allocated.2
  let heap2 := config.fields.foldl
    (fun h fp => (_draw_field measure h badgeRef fp (csv.get_value row_index fp.csv_column)).1)
    allocated.1
  (heap2, badgeRef)

/-- The aspect-preserving badge-to-cell fit of export_pdf
(src/export/pdf_export.py, the draw_w / draw_h computation):

    badge_aspect = config.badge_width / max(config.badge_height, 1)
    cell_aspect = cell_w / max(cell_h, 1)
    if badge_aspect > cell_aspect: draw_w = cell_w; draw_h = cell_w / badge_aspect
    else: draw_h = cell_h; draw_w = cell_h * badge_aspect

Returns (draw_w, draw_h). -/
def fitBadgeInCell (badge_width badge_height : ℤ) (cell_w cell_h : ℚ) : ℚ × ℚ :=
  let badge_aspect : ℚ := (badge_width : ℚ) / ((max badge_height 1 : ℤ) : ℚ)
  let cell_aspect : ℚ := cell_w / max cell_h 1
  if badge_aspect > cell_aspect then (cell_w, cell_w / badge_aspect)
  else (cell_h * badge_aspect, cell_h)

/-- Events of the export loop of export_pdf, in emission order:
draw i page col row records the drawImage placement of badge i (page is the
number of showPage calls already performed, i.e. the 0-based page the badge
lands on); page records a c.showPage() call; prog k records an
on_progress(k) callback. -/
inductive Ev where
  | draw (i page col row : ℕ)
  | page
  | prog (k : ℕ)
deriving DecidableEq

/-- State of the export loop: the event trace so far, the number of
showPage calls performed, and whether the current (in-progress) page has
content drawn on it since the last showPage.  The content flag models the
ReportLab rule that Canvas.save() emits the in-progress page exactly when
it has content. -/
structure PdfState where
  events : List Ev
  showPages : ℕ
  content : Bool
deriving DecidableEq

/-- One iteration body of the export loop of export_pdf for row i (after
the cancellation check): render and place badge i at
page_idx = i % badges_per_page, col = page_idx % cols,
row_on_page = page_idx / cols; then showPage when the page became full and
more badges remain (page_idx == badges_per_page - 1 and i < total_rows - 1);
then call on_progress(i + 1). -/
def pdfStep (bpp cols n : ℕ) (st : PdfState) (i : ℕ) : PdfState :=
  let page_idx := i % bpp
  let col := page_idx % cols
  let row_on_page := page_idx / cols
  let st1 : PdfState :=
    ⟨st.events ++ [Ev.draw i st.showPages col row_on_page], st.showPages, true⟩
  let st2 : PdfState :=
    if page_idx = bpp - 1 ∧ i < n - 1 then
      ⟨st1.events ++ [Ev.page], st1.showPages + 1, false⟩
    else st1
  ⟨st2.events ++ [Ev.prog (i + 1)], st2.showPages, st2.content⟩

/-- The cancellation poll of export_pdf: if is_cancelled and is_cancelled().
The optional callback is modelled as a function of the poll instant (the
row index about to be processed), which determinises the time-varying
flag read by the callback. -/
def cancelCheck (c : Option (ℕ → Bool)) (i : ℕ) : Bool :=
  match c with
  | none => false
  | some f => f i

/-- The row loop of export_pdf: for i in range(total_rows), polling
cancellation before each row and breaking out when it fires. -/
def pdfLoop (bpp cols n : ℕ) (c : Option (ℕ → Bool)) :
    List ℕ → PdfState → PdfState
  | [], st => st
  | i :: rest, st =>
      if cancelCheck c i then st
      else pdfLoop bpp cols n c rest (pdfStep bpp cols n st i)

/-- The layout and control-flow core of export_pdf
(src/export/pdf_export.py): cols = config.badges_per_row,
rows = config.badges_per_col, badges_per_page = cols * rows,
n = csv_data.row_count, iterated over range(n) from the empty canvas. -/
def export_pdf (cols rows n : ℕ) (c : Option (ℕ → Bool)) : PdfState :=
  pdfLoop (cols * rows) cols n c (List.range n) ⟨[], 0, false⟩

/-- Pages emitted by the ReportLab canvas over the whole export: one page
per showPage call, plus the in-progress page that c.save() emits when it
has content. -/
def pagesEmitted (st : PdfState) : ℕ :=
  st.showPages + (if st.content then 1 else 0)

/-- The on_progress arguments actually delivered, in call order. -/
def PdfState.progressCalls (st : PdfState) : List ℕ :=
  st.events.filterMap (fun e =>
    match e with
    | Ev.prog k => some k
    | _ => none)

/-- The drawImage placements actually performed, in order:
(badge index, 0-based page, column, row on page). -/
def PdfState.drawn (st : PdfState) : List (ℕ × ℕ × ℕ × ℕ) :=
  st.events.filterMap (fun e =>
    match e with
    | Ev.draw i p c r => some (i, p, c, r)
    | _ => none)

/-- The run_export closure of start_pdf_export (src/web/app.py): the task
thread calls export_pdf with on_progress but without is_cancelled (the
parameter defaults to None), then sets the task status to "done", or to
"error" when export_pdf raised (raises models that exception).  Returns the
terminal task status together with the driver state produced by the
export_pdf call. -/
def run_export (cols rows n : ℕ) (raises : Bool) : String × PdfState :=
  let st := export_pdf cols rows n none
  (if raises then "error" else "done", st)

/-- Decision of the new-page condition of the export loop for badge i:
page_idx == badges_per_page - 1 and i < total_rows - 1. -/
def newPageAfter (bpp n i : ℕ) : Bool :=
  decide (i % bpp = bpp - 1 ∧ i < n - 1)

/-- Number of showPage calls performed before loop iteration m starts. -/
def pagesBefore (bpp n m : ℕ) : ℕ :=
  ((List.range m).filter (fun i => newPageAfter bpp n i)).length

/-- The events emitted by loop iteration i when p pages were already
emitted: the drawImage placement, the conditional showPage, the progress
callback. -/
def rowEvents (bpp cols n i p : ℕ) : List Ev :=
  [Ev.draw i p (i % bpp % cols) (i % bpp / cols)] ++
    (if newPageAfter bpp n i then [Ev.page] else []) ++ [Ev.prog (i + 1)]

/-- The full event trace after the first m loop iterations. -/
def loopEvents (bpp cols n m : ℕ) : List Ev :=
  ((List.range m).map (fun i => rowEvents bpp cols n i (pagesBefore bpp n i))).flatten

/-- Example FieldPlacement with font size 5 and max width 10: font sizes
below the shrink floor of 8 are legal inputs, the data-model invariant only
asks fontSize ≥ 1. -/
def fpSmall : FieldPlacement :=
  ⟨"Name", 0, 0, "Arial", 5, "#000000", false, false, "center", 10⟩

/-- The scenario FieldPlacement of the spec: fontSize 40, maxWidth 900. -/
def fpScenario : FieldPlacement :=
  ⟨"Name", 0, 0, "Arial", 40, "#000000", false, false, "center", 900⟩

/-- Example FieldPlacement carrying an alignment value outside the
left / center / right enum. -/
def fpJustify : FieldPlacement :=
  ⟨"Name", 10, 20, "Arial", 24, "#000000", false, false, "justify", 0⟩

/-- Example one-row CSV data. -/
def csvOne : CSVData := ⟨["Name"], [[("Name", "Bob")]]⟩

/-- Example template with one field and no background path. -/
def cfgOne : BadgeConfig := ⟨"", 1050, 600, [fpJustify], 2, 4, "letter", 10, 2⟩

/-- Example pre-decoded background image. -/
def bgImage : Image := ⟨100, 50, "background", []⟩

/-- The division guard of compute_scale_factor: non-positive image
dimensions yield scale 1. -/
theorem compute_scale_factor_guard (a b u v : ℤ) (h : a ≤ 0 ∨ b ≤ 0) :
    compute_scale_factor a b u v = 1 := by
  simp only [compute_scale_factor]
  rw [if_pos h]

/-- compute_scale_factor on positive image dimensions is the min of the
two per-axis ratios. -/
theorem compute_scale_factor_pos (iw ih cw ch : ℤ) (hiw : 0 < iw) (hih : 0 < ih) :
    compute_scale_factor iw ih cw ch = min ((cw : ℚ) / (iw : ℚ)) ((ch : ℚ) / (ih : ℚ)) := by
  simp only [compute_scale_factor]
  rw [if_neg (by omega)]

/-- C5: compute_scale_factor (scaleToFit) returns
min(boundW/contentW, boundH/contentH) for positive content dimensions and
1.0 when contentW ≤ 0 or contentH ≤ 0; for positive inputs the scaled
content fits both bounds and is tight on at least one axis (over ℚ the
fit is exact, so the tolerance ε of the spec is 0). -/
theorem C5_scale_to_fit (iw ih cw ch : ℤ)
    (hiw : 0 < iw) (hih : 0 < ih) (hcw : 0 < cw) (hch : 0 < ch) :
    (∀ a b u v : ℤ, a ≤ 0 ∨ b ≤ 0 → compute_scale_factor a b u v = 1) ∧
    compute_scale_factor iw ih cw ch = min ((cw : ℚ) / (iw : ℚ)) ((ch : ℚ) / (ih : ℚ)) ∧
    (iw : ℚ) * compute_scale_factor iw ih cw ch ≤ (cw : ℚ) ∧
    (ih : ℚ) * compute_scale_factor iw ih cw ch ≤ (ch : ℚ) ∧
    ((iw : ℚ) * compute_scale_factor iw ih cw ch = (cw : ℚ) ∨
      (ih : ℚ) * compute_scale_factor iw ih cw ch = (ch : ℚ)) := by
  have hiw' : (0 : ℚ) < (iw : ℚ) := by exact_mod_cast hiw
  have hih' : (0 : ℚ) < (ih : ℚ) := by exact_mod_cast hih
  have hmin := compute_scale_factor_pos iw ih cw ch hiw hih
  have hx : (iw : ℚ) * ((cw : ℚ) / (iw : ℚ)) = (cw : ℚ) := by
    field_simp
  have hy : (ih : ℚ) * ((ch : ℚ) / (ih : ℚ)) = (ch : ℚ) := by
    field_simp
  refine ⟨compute_scale_factor_guard, hmin, ?_, ?_, ?_⟩
  · rw [hmin]
    calc (iw : ℚ) * min ((cw : ℚ) / (iw : ℚ)) ((ch : ℚ) / (ih : ℚ))
        ≤ (iw : ℚ) * ((cw : ℚ) / (iw : ℚ)) :=
          mul_le_mul_of_nonneg_left (min_le_left _ _) hiw'.le
      _ = (cw : ℚ) := hx
  · rw [hmin]
    calc (ih : ℚ) * min ((cw : ℚ) / (iw : ℚ)) ((ch : ℚ) / (ih : ℚ))
        ≤ (ih : ℚ) * ((ch : ℚ) / (ih : ℚ)) :=
          mul_le_mul_of_nonneg_left (min_le_right _ _) hih'.le
      _ = (ch : ℚ) := hy
  · rw [hmin]
    rcases min_choice ((cw : ℚ) / (iw : ℚ)) ((ch : ℚ) / (ih : ℚ)) with hm | hm
    · exact Or.inl (by rw [hm, hx])
    · exact Or.inr (by rw [hm, hy])

/-- C5 witness at contentW = 4, contentH = 3, boundW = 8, boundH = 9. -/
theorem C5_scale_to_fit_witness :
    (0 : ℤ) < 4 ∧ (0 : ℤ) < 3 ∧ (0 : ℤ) < 8 ∧ (0 : ℤ) < 9 ∧
    ((4 : ℚ) * compute_scale_factor 4 3 8 9 = (8 : ℚ) ∨
      (3 : ℚ) * compute_scale_factor 4 3 8 9 = (9 : ℚ)) :=
  ⟨by norm_num, by norm_num, by norm_num, by norm_num,
    (C5_scale_to_fit 4 3 8 9 (by norm_num) (by norm_num) (by norm_num) (by norm_num)).2.2.2.2⟩

/-- C6: converting template (image) space to display (canvas) space and
back is the identity for every nonzero-positive scale, exactly over ℚ;
and canvas_to_image at scale 0 returns (0, 0) instead of dividing by
zero. -/
theorem C6_roundtrip (x y scale offset_x offset_y : ℚ) (hs : 0 < scale) :
    canvas_to_image (image_to_canvas x y scale offset_x offset_y).1
      (image_to_canvas x y scale offset_x offset_y).2 scale offset_x offset_y = (x, y) ∧
    (∀ cx cy ox oy : ℚ, canvas_to_image cx cy 0 ox oy = (0, 0)) := by
  constructor
  · simp only [image_to_canvas, canvas_to_image]
    rw [if_neg hs.ne']
    have h1 : (x * scale + offset_x - offset_x) / scale = x := by
      field_simp
    have h2 : (y * scale + offset_y - offset_y) / scale = y := by
      field_simp
    rw [h1, h2]
  · intro cx cy ox oy
    simp [canvas_to_image]

/-- C6 witness at (x, y) = (3, 5), scale 2, offsets (7, 11), and one
zero-scale instance. -/
theorem C6_roundtrip_witness :
    (0 : ℚ) < 2 ∧
    canvas_to_image (image_to_canvas 3 5 2 7 11).1 (image_to_canvas 3 5 2 7 11).2 2 7 11
      = ((3 : ℚ), (5 : ℚ)) ∧
    canvas_to_image 9 9 0 1 2 = ((0 : ℚ), (0 : ℚ)) :=
  ⟨by norm_num, (C6_roundtrip 3 5 2 7 11 (by norm_num)).1,
    (C6_roundtrip 0 0 1 0 0 (by norm_num)).2 9 9 1 2⟩

/-- Fuel-indexed characterisation of the auto-shrink loop: the final size
is at least min(initial, 8), never grows, and the iteration count is at
most (initial - 8) (clamped at 0). -/
theorem shrink_spec (measure : ℤ → ℤ) (mw : ℤ) :
    ∀ (k : ℕ) (size : ℤ), (size - 8).toNat ≤ k →
      min size 8 ≤ (shrink measure mw size).1 ∧
      (shrink measure mw size).1 ≤ size ∧
      (shrink measure mw size).2 ≤ (size - 8).toNat := by
  intro k
  induction k with
  | zero =>
      intro size hk
      have h8 : size ≤ 8 := by omega
      unfold shrink
      rw [dif_neg (fun h => absurd h.2 (by omega))]
      exact ⟨min_le_left _ _, le_refl _, Nat.zero_le _⟩
  | succ k ih =>
      intro size hk
      by_cases hc : measure size > mw ∧ size > 8
      · unfold shrink
        rw [dif_pos hc]
        have hrec := ih (size - 1) (by omega)
        refine ⟨?_, ?_, ?_⟩
        · have h1 : min (size - 1) 8 = 8 := min_eq_right (by omega)
          have h2 : min size 8 = 8 := min_eq_right (by omega)
          have := hrec.1
          rw [h1] at this
          rw [h2]
          exact this
        · exact le_trans hrec.2.1 (by omega)
        · have := hrec.2.2
          show (shrink measure mw (size - 1)).2 + 1 ≤ (size - 8).toNat
          omega
      · unfold shrink
        rw [dif_neg hc]
        exact ⟨min_le_left _ _, le_refl _, Nat.zero_le _⟩

/-- C2 (amended): for maxWidth > 0 and initial fontSize ≥ 1 the shrink
loop performs at most (initialSize - 8) iterations (so it terminates), the
effective size never grows, is at least min(initialSize, 8) — hence at
least 8 whenever the initial size is at least 8 — and stays positive, so
the text is never hidden.  The floor claim of the spec holds only from
initial sizes ≥ 8: below that the guard size > 8 keeps the loop from
running at all and the effective size stays at the initial size. -/
theorem C2_auto_shrink (measure : ℤ → ℤ) (fp : FieldPlacement)
    (hmw : 0 < fp.max_width) (hfs : 1 ≤ fp.font_size) :
    (shrink measure fp.max_width fp.font_size).2 ≤ (fp.font_size - 8).toNat ∧
    effective_size measure fp = (shrink measure fp.max_width fp.font_size).1 ∧
    min fp.font_size 8 ≤ effective_size measure fp ∧
    effective_size measure fp ≤ fp.font_size ∧
    (8 ≤ fp.font_size → 8 ≤ effective_size measure fp) ∧
    1 ≤ effective_size measure fp := by
  have hs := shrink_spec measure fp.max_width ((fp.font_size - 8).toNat) fp.font_size (le_refl _)
  have heff : effective_size measure fp = (shrink measure fp.max_width fp.font_size).1 := by
    simp only [effective_size]
    rw [if_pos hmw]
  rw [heff]
  rcases le_or_lt 8 fp.font_size with h8 | h8
  · have hm : min fp.font_size 8 = 8 := min_eq_right h8
    rw [hm] at hs
    exact ⟨hs.2.2, rfl, by rw [hm]; omega, hs.2.1, fun _ => hs.1, by omega⟩
  · have hm : min fp.font_size 8 = fp.font_size := min_eq_left h8.le
    rw [hm] at hs
    exact ⟨hs.2.2, rfl, by rw [hm]; exact hs.1, hs.2.1, fun h => absurd h (by omega), by omega⟩

/-- C2 counterexample: with initial fontSize 5 (legal, the invariant is
only fontSize ≥ 1) and maxWidth 10, a text measuring 100 wide at every
size leaves the effective draw size at 5, so the claimed floor of 8 for
every fontSize ≥ 1 is false. -/
theorem C2_counterexample :
    1 ≤ fpSmall.font_size ∧ 0 < fpSmall.max_width ∧
    effective_size (fun _ => 100) fpSmall = 5 ∧
    ¬ 8 ≤ effective_size (fun _ => 100) fpSmall := by
  have h5 : effective_size (fun _ => 100) fpSmall = 5 := by
    simp only [effective_size, fpSmall]
    rw [if_pos (by norm_num)]
    unfold shrink
    rw [dif_neg (by norm_num)]
  exact ⟨by decide, by decide, h5, by rw [h5]; norm_num⟩

/-- C2 witness: the spec scenario (fontSize 40, maxWidth 900) with a text
25 units wide per point of size shrinks within the bound and ends at or
above the floor of 8. -/
theorem C2_auto_shrink_witness :
    0 < fpScenario.max_width ∧ 1 ≤ fpScenario.font_size ∧
    (shrink (fun s => 25 * s) fpScenario.max_width fpScenario.font_size).2
      ≤ (fpScenario.font_size - 8).toNat ∧
    8 ≤ effective_size (fun s => 25 * s) fpScenario := by
  have h := C2_auto_shrink (fun s => 25 * s) fpScenario (by decide) (by decide)
  exact ⟨by decide, by decide, h.1, h.2.2.2.2.1 (by decide)⟩

/-- The function _draw_field leaves the FieldPlacement exactly as it received it; in
particular font_size is untouched even when the auto-shrink loop ran (the
shrunk size lives in the local effective_size). -/
theorem draw_field_snd (measure : String → ℤ → ℤ) (heap : List Image) (badgeRef : ℕ)
    (fp : FieldPlacement) (text : String) :
    (_draw_field measure heap badgeRef fp text).2 = fp := by
  unfold _draw_field
  split <;> rfl

/-- drawText only mutates the image at its target address. -/
theorem drawText_frame (heap : List Image) (ref : ℕ) (op : DrawOp) (r : ℕ) (h : r ≠ ref) :
    (drawText heap ref op).get? r = heap.get? r := by
  simp only [drawText]
  exact List.get?_set_ne _ _ (Ne.symm h)

/-- The function _draw_field only mutates the badge canvas it is given. -/
theorem draw_field_frame (measure : String → ℤ → ℤ) (heap : List Image) (badgeRef : ℕ)
    (fp : FieldPlacement) (text : String) (r : ℕ) (h : r ≠ badgeRef) :
    ((_draw_field measure heap badgeRef fp text).1).get? r = heap.get? r := by
  unfold _draw_field
  split
  · rfl
  · exact drawText_frame _ _ _ _ h

/-- Folding _draw_field over the field list only mutates the badge
canvas. -/
theorem foldl_draw_frame (measure : String → ℤ → ℤ) (fields : List FieldPlacement)
    (csv : CSVData) (i : ℤ) (badgeRef : ℕ) :
    ∀ (heap : List Image) (r : ℕ), r ≠ badgeRef →
      (fields.foldl
        (fun h fp => (_draw_field measure h badgeRef fp (csv.get_value i fp.csv_column)).1)
        heap).get? r = heap.get? r := by
  induction fields with
  | nil => intro heap r _; rfl
  | cons fp rest ih =>
      intro heap r h
      rw [List.foldl_cons, ih _ r h, draw_field_frame _ _ _ _ _ _ h]

/-- render_badge never mutates a pre-existing heap object: every image
that existed before the call (the shared background in particular) is
unchanged afterwards; only freshly allocated images are drawn on. -/
theorem render_badge_frame (measure : String → ℤ → ℤ) (config : BadgeConfig)
    (csv : CSVData) (i : ℤ) (heap : List Image) (background : Option ℕ) (r : ℕ)
    (hr : r < heap.length) :
    ((render_badge measure config csv i heap background).1).get? r = heap.get? r := by
  cases background with
  | none =>
      by_cases hp : config.background_image_path ≠ ""
      · simp only [render_badge, allocImage, if_pos hp]
        rw [foldl_draw_frame measure config.fields csv i _ _ r (by omega)]
        exact List.get?_append hr
      · simp only [render_badge, allocImage, if_neg hp]
        rw [foldl_draw_frame measure config.fields csv i _ _ r (by omega)]
        exact List.get?_append hr
  | some bg =>
      simp only [render_badge, allocImage]
      have hlen : (heap ++ [heap.getD bg blankImage]).length = heap.length + 1 := by
        simp
      rw [foldl_draw_frame measure config.fields csv i _ _ r (by omega)]
      rw [List.get?_append (by simp; omega), List.get?_append hr]

/-- C9: rendering mutates only the freshly created badge canvas.
_draw_field returns its FieldPlacement unchanged (font_size included, the
auto-shrunk size is a local), and render_badge leaves every pre-existing
heap image — the caller's shared pre-decoded background in particular —
exactly as it was: the code copies the background before drawing. -/
theorem C9_render_pure :
    (∀ (measure : String → ℤ → ℤ) (heap : List Image) (badgeRef : ℕ)
        (fp : FieldPlacement) (text : String),
        (_draw_field measure heap badgeRef fp text).2 = fp) ∧
    (∀ (measure : String → ℤ → ℤ) (config : BadgeConfig) (csv : CSVData)
        (i : ℤ) (heap : List Image) (background : Option ℕ) (r : ℕ),
        r < heap.length →
        ((render_badge measure config csv i heap background).1).get? r = heap.get? r) :=
  ⟨draw_field_snd, render_badge_frame⟩

/-- C9 witness: a concrete render over a one-image heap with the shared
background at address 0 leaves that image unchanged, and a concrete
_draw_field call returns its FieldPlacement unchanged. -/
theorem C9_render_pure_witness :
    0 < [bgImage].length ∧
    ((render_badge (fun _ _ => 0) cfgOne csvOne 0 [bgImage] (some 0)).1).get? 0
      = [bgImage].get? 0 ∧
    (_draw_field (fun _ _ => 0) [] 0 fpScenario "Bob").2 = fpScenario :=
  ⟨by decide,
    C9_render_pure.2 (fun _ _ => 0) cfgOne csvOne 0 [bgImage] (some 0) 0 (by decide),
    C9_render_pure.1 (fun _ _ => 0) [] 0 fpScenario "Bob"⟩

/-- get_value yields the empty string for any out-of-range row index
(negative included). -/
theorem get_value_out_of_range (csv : CSVData) (i : ℤ) (col : String)
    (h : ¬(0 ≤ i ∧ i < (csv.rows.length : ℤ))) : csv.get_value i col = "" := by
  simp only [CSVData.get_value]
  rw [if_neg h]

/-- get_value yields the empty string when the column is absent from the
row. -/
theorem get_value_missing_col (csv : CSVData) (i : ℤ) (col : String)
    (h : (csv.rows.getD i.toNat []).lookup col = none) : csv.get_value i col = "" := by
  simp only [CSVData.get_value]
  split
  · rw [h]
    rfl
  · rfl

/-- A _draw_field call with empty text is a no-op on the heap. -/
theorem draw_field_empty (measure : String → ℤ → ℤ) (heap : List Image) (badgeRef : ℕ)
    (fp : FieldPlacement) : (_draw_field measure heap badgeRef fp "").1 = heap := by
  unfold _draw_field
  rw [if_pos rfl]

/-- When every column resolves to the empty string (an out-of-range row),
the whole field pass is a no-op on the heap. -/
theorem foldl_draw_no_text (measure : String → ℤ → ℤ) (fields : List FieldPlacement)
    (csv : CSVData) (i : ℤ) (badgeRef : ℕ) (h : ∀ col, csv.get_value i col = "") :
    ∀ heap : List Image,
      fields.foldl
        (fun h2 fp => (_draw_field measure h2 badgeRef fp (csv.get_value i fp.csv_column)).1)
        heap = heap := by
  induction fields with
  | nil => intro heap; rfl
  | cons fp rest ih =>
      intro heap
      rw [List.foldl_cons, h fp.csv_column, draw_field_empty, ih]

/-- Rendering an out-of-range row (no background) produces the blank white
canvas with no text drawn and raises no error. -/
theorem render_badge_out_of_range (measure : String → ℤ → ℤ) (config : BadgeConfig)
    (csv : CSVData) (i : ℤ) (heap : List Image)
    (hout : ¬(0 ≤ i ∧ i < (csv.rows.length : ℤ)))
    (hpath : config.background_image_path = "") :
    render_badge measure config csv i heap none =
      (heap ++ [⟨config.badge_width, config.badge_height, "white", []⟩], heap.length) := by
  have hcond : ¬ config.background_image_path ≠ "" := fun hne => hne hpath
  simp only [render_badge, allocImage, if_neg hcond]
  rw [foldl_draw_no_text measure config.fields csv i _
    (fun col => get_value_out_of_range csv i col hout)]

/-- C8: the data source's get_value is total and silent: it returns the
empty string for every out-of-range row index (negative included) and for
every column missing from the row, and rendering a badge with an
out-of-range row index consequently draws no text and raises no error. -/
theorem C8_get_value_total :
    (∀ (csv : CSVData) (i : ℤ) (col : String),
        ¬(0 ≤ i ∧ i < (csv.rows.length : ℤ)) → csv.get_value i col = "") ∧
    (∀ (csv : CSVData) (i : ℤ) (col : String),
        (csv.rows.getD i.toNat []).lookup col = none → csv.get_value i col = "") ∧
    (∀ (measure : String → ℤ → ℤ) (config : BadgeConfig) (csv : CSVData)
        (i : ℤ) (heap : List Image),
        ¬(0 ≤ i ∧ i < (csv.rows.length : ℤ)) → config.background_image_path = "" →
        render_badge measure config csv i heap none =
          (heap ++ [⟨config.badge_width, config.badge_height, "white", []⟩], heap.length)) :=
  ⟨get_value_out_of_range, get_value_missing_col, render_badge_out_of_range⟩

/-- C8 witness: row index 5 of a one-row CSV and a missing column both
yield the empty string, and rendering row 5 yields the blank canvas. -/
theorem C8_get_value_total_witness :
    ¬((0 : ℤ) ≤ 5 ∧ (5 : ℤ) < (csvOne.rows.length : ℤ)) ∧
    csvOne.get_value 5 "Name" = "" ∧
    csvOne.get_value 0 "Missing" = "" ∧
    render_badge (fun _ _ => 0) cfgOne csvOne 5 [] none =
      ([⟨cfgOne.badge_width, cfgOne.badge_height, "white", []⟩], 0) := by
  refine ⟨by decide, ?_, ?_, ?_⟩
  · exact C8_get_value_total.1 csvOne 5 "Name" (by decide)
  · exact C8_get_value_total.2.1 csvOne 0 "Missing" (by decide)
  · exact C8_get_value_total.2.2 (fun _ _ => 0) cfgOne csvOne 5 [] (by decide) rfl

/-- Any alignment outside the enum resolves to the default anchor mt. -/
theorem anchor_for_unknown (a : String)
    (h1 : a ≠ "left") (h2 : a ≠ "center") (h3 : a ≠ "right") :
    anchor_for a = "mt" := by
  have e1 : (a == "left") = false := beq_eq_false_iff_ne.mpr h1
  have e2 : (a == "center") = false := beq_eq_false_iff_ne.mpr h2
  have e3 : (a == "right") = false := beq_eq_false_iff_ne.mpr h3
  simp [anchor_for, anchor_map, List.lookup, e1, e2, e3]

/-- C10: an unrecognized alignment value does not fail; _draw_field picks
the default top-center anchor mt, so the canvas effect is exactly the one
of alignment center. -/
theorem C10_unknown_alignment (measure : String → ℤ → ℤ) (heap : List Image)
    (badgeRef : ℕ) (fp : FieldPlacement) (text : String)
    (h1 : fp.alignment ≠ "left") (h2 : fp.alignment ≠ "center") (h3 : fp.alignment ≠ "right") :
    anchor_for fp.alignment = "mt" ∧
    anchor_for fp.alignment = anchor_for "center" ∧
    (_draw_field measure heap badgeRef fp text).1 =
      (_draw_field measure heap badgeRef { fp with alignment := "center" } text).1 := by
  have ha := anchor_for_unknown fp.alignment h1 h2 h3
  have hc : anchor_for "center" = "mt" := by decide
  refine ⟨ha, by rw [ha, hc], ?_⟩
  by_cases ht : text = ""
  · simp [_draw_field, ht]
  · simp only [_draw_field, if_neg ht]
    rw [show anchor_for ({ fp with alignment := "center" } : FieldPlacement).alignment = "mt"
      from hc, ha]
    rfl

/-- C10 witness at the concrete alignment value justify. -/
theorem C10_unknown_alignment_witness :
    fpJustify.alignment ≠ "left" ∧ fpJustify.alignment ≠ "center" ∧
    fpJustify.alignment ≠ "right" ∧
    anchor_for fpJustify.alignment = "mt" ∧
    (_draw_field (fun _ _ => 0) [bgImage] 0 fpJustify "Bob").1 =
      (_draw_field (fun _ _ => 0) [bgImage] 0 { fpJustify with alignment := "center" } "Bob").1 := by
  have h := C10_unknown_alignment (fun _ _ => 0) [bgImage] 0 fpJustify "Bob"
    (by decide) (by decide) (by decide)
  exact ⟨by decide, by decide, by decide, h.1, h.2.2⟩

/-- With a cancellation callback that never fires, the export loop is a
plain fold of the step over the index list. -/
theorem pdfLoop_eq_foldl (bpp cols n : ℕ) (c : Option (ℕ → Bool))
    (hc : ∀ i, cancelCheck c i = false) :
    ∀ (l : List ℕ) (st : PdfState),
      pdfLoop bpp cols n c l st = l.foldl (pdfStep bpp cols n) st := by
  intro l
  induction l with
  | nil => intro st; rfl
  | cons i rest ih =>
      intro st
      simp [pdfLoop, hc i, List.foldl_cons, ih]

/-- One more iteration appends that iteration's events. -/
theorem loopEvents_succ (bpp cols n m : ℕ) :
    loopEvents bpp cols n (m + 1) =
      loopEvents bpp cols n m ++ rowEvents bpp cols n m (pagesBefore bpp n m) := by
  simp [loopEvents, List.range_succ]

/-- The page count advances exactly when the new-page condition held. -/
theorem pagesBefore_succ (bpp n m : ℕ) :
    pagesBefore bpp n (m + 1) =
      pagesBefore bpp n m + (if newPageAfter bpp n m then 1 else 0) := by
  by_cases h : newPageAfter bpp n m <;>
    simp [pagesBefore, List.range_succ, List.filter_append, h]

/-- Closed form of the first m iterations of the export loop: the event
trace, the showPage count, and the content flag of the in-progress page. -/
theorem foldl_pdfStep_closed (bpp cols n : ℕ) :
    ∀ m : ℕ,
      (List.range m).foldl (pdfStep bpp cols n) ⟨[], 0, false⟩ =
        ⟨loopEvents bpp cols n m, pagesBefore bpp n m,
          decide (0 < m) && !(newPageAfter bpp n (m - 1))⟩ := by
  intro m
  induction m with
  | zero => rfl
  | succ m ih =>
      rw [List.range_succ, List.foldl_append, ih]
      simp only [List.foldl_cons, List.foldl_nil]
      by_cases hb : m % bpp = bpp - 1 ∧ m < n - 1
      · have hbB : newPageAfter bpp n m = true := decide_eq_true hb
        simp [pdfStep, hb, loopEvents_succ, pagesBefore_succ, rowEvents, hbB,
          List.append_assoc]
      · have hbB : newPageAfter bpp n m = false := decide_eq_false hb
        simp [pdfStep, hb, loopEvents_succ, pagesBefore_succ, rowEvents, hbB,
          List.append_assoc]

/-- Counting the indices below m whose residue is b - 1: one per full block
of b. -/
theorem count_mod_boundary (b : ℕ) (hb : 0 < b) :
    ∀ m : ℕ, ((List.range m).filter (fun i => decide (i % b = b - 1))).length = m / b := by
  intro m
  induction m with
  | zero => simp
  | succ m ih =>
      rw [List.range_succ, List.filter_append, List.length_append, ih]
      by_cases hm : m % b = b - 1
      · have hdvd : b ∣ m + 1 := by
          refine ⟨m / b + 1, ?_⟩
          have h1 := Nat.div_add_mod m b
          have h2 : b * (m / b + 1) = b * (m / b) + b := by ring
          omega
        simp [hm, Nat.succ_div_of_dvd hdvd]
      · have hndvd : ¬ b ∣ m + 1 := by
          intro hd
          obtain ⟨c, hc⟩ := hd
          have h0 : (m + 1) % b = 0 := by rw [hc]; exact Nat.mul_mod_right b c
          have h1 := Nat.div_add_mod m b
          have h4 : b * (m / b) + (m % b + 1) = m + 1 := by omega
          have h3 : (m + 1) % b = (m % b + 1) % b := by rw [← h4, Nat.mul_add_mod]
          have h5 : m % b < b := Nat.mod_lt _ hb
          have h6 : (m % b + 1) % b = m % b + 1 := Nat.mod_eq_of_lt (by omega)
          omega
        simp [hm, Nat.succ_div_of_not_dvd hndvd]

/-- Before the last row is reached, the more-badges-remain conjunct of the
new-page condition is automatic, so the pages emitted before iteration m
are exactly m / badgesPerPage. -/
theorem pagesBefore_lt (bpp n m : ℕ) (hb : 0 < bpp) (hm : m < n) :
    pagesBefore bpp n m = m / bpp := by
  rw [pagesBefore, ← count_mod_boundary bpp hb m]
  congr 1
  apply List.filter_congr
  intro i hi
  rw [List.mem_range] at hi
  simp only [newPageAfter]
  rw [decide_eq_decide]
  constructor
  · intro h; exact h.1
  · intro h; exact ⟨h, by omega⟩

/-- The new-page condition never holds at the final iteration. -/
theorem newPageAfter_last (bpp n : ℕ) : newPageAfter bpp n (n - 1) = false := by
  simp [newPageAfter]

/-- At the end of a full run the pages emitted by showPage are
(n - 1) / badgesPerPage: the last badge never triggers showPage. -/
theorem pagesBefore_end (bpp n : ℕ) (hb : 0 < bpp) :
    pagesBefore bpp n n = (n - 1) / bpp := by
  cases n with
  | zero => simp [pagesBefore]
  | succ m =>
      have hlast : newPageAfter bpp (m + 1) m = false := by
        simp [newPageAfter]
      have hprev := pagesBefore_lt bpp (m + 1) m hb (by omega)
      rw [pagesBefore, List.range_succ, List.filter_append, List.length_append]
      rw [pagesBefore] at hprev
      rw [hprev]
      simp [hlast]

/-- The drawImage placements recorded in the closed-form trace. -/
theorem drawn_closed (bpp cols n : ℕ) (m : ℕ) (s : ℕ) (c : Bool) :
    PdfState.drawn ⟨loopEvents bpp cols n m, s, c⟩ =
      (List.range m).map (fun i =>
        (i, pagesBefore bpp n i, i % bpp % cols, i % bpp / cols)) := by
  induction m with
  | zero => rfl
  | succ m ih =>
      simp only [PdfState.drawn] at ih ⊢
      rw [loopEvents_succ, List.filterMap_append, ih, List.range_succ, List.map_append]
      by_cases hb : newPageAfter bpp n m <;> simp [rowEvents, hb]

/-- The progress callbacks recorded in the closed-form trace. -/
theorem progress_closed (bpp cols n : ℕ) (m : ℕ) (s : ℕ) (c : Bool) :
    PdfState.progressCalls ⟨loopEvents bpp cols n m, s, c⟩ =
      (List.range m).map (fun i => i + 1) := by
  induction m with
  | zero => rfl
  | succ m ih =>
      simp only [PdfState.progressCalls] at ih ⊢
      rw [loopEvents_succ, List.filterMap_append, ih, List.range_succ, List.map_append]
      by_cases hb : newPageAfter bpp n m <;> simp [rowEvents, hb]

/-- Closed form of a full export run without cancellation. -/
theorem export_pdf_none_closed (cols rows n : ℕ) :
    export_pdf cols rows n none =
      ⟨loopEvents (cols * rows) cols n n, pagesBefore (cols * rows) n n,
        decide (0 < n) && !(newPageAfter (cols * rows) n (n - 1))⟩ := by
  rw [export_pdf, pdfLoop_eq_foldl (cols * rows) cols n none (fun _ => rfl),
    foldl_pdfStep_closed]

/-- A prefix on which cancellation never fires can be folded before the
rest of the loop. -/
theorem pdfLoop_append_no_cancel (bpp cols n : ℕ) (c : Option (ℕ → Bool)) :
    ∀ (l₁ l₂ : List ℕ) (st : PdfState), (∀ i ∈ l₁, cancelCheck c i = false) →
      pdfLoop bpp cols n c (l₁ ++ l₂) st =
        pdfLoop bpp cols n c l₂ (l₁.foldl (pdfStep bpp cols n) st) := by
  intro l₁
  induction l₁ with
  | nil => intro l₂ st _; rfl
  | cons i rest ih =>
      intro l₂ st h
      rw [List.cons_append, List.foldl_cons]
      simp only [pdfLoop, h i (by simp)]
      rw [ih _ _ (fun j hj => h j (by simp [hj]))]
      simp

/-- The loop stops at once when cancellation fires on the head. -/
theorem pdfLoop_cancel_head (bpp cols n : ℕ) (c : Option (ℕ → Bool)) (i : ℕ)
    (rest : List ℕ) (st : PdfState) (h : cancelCheck c i = true) :
    pdfLoop bpp cols n c (i :: rest) st = st := by
  simp [pdfLoop, h]

/-- Closed form of an export run with a cancellation request that starts
returning true exactly from the poll before row k (rows are polled in
order, so rows 0..k-1 run and the loop breaks before row k). -/
theorem export_pdf_cancelFrom_closed (cols rows n k : ℕ) (hk : k ≤ n) :
    export_pdf cols rows n (some (fun i => decide (k ≤ i))) =
      ⟨loopEvents (cols * rows) cols n k, pagesBefore (cols * rows) n k,
        decide (0 < k) && !(newPageAfter (cols * rows) n (k - 1))⟩ := by
  rw [export_pdf]
  have hsplit : List.range n = List.range k ++ List.range' k (n - k) := by
    rw [List.range_eq_range', List.range_eq_range']
    have h := List.range'_append 0 k (n - k) 1
    simp only [Nat.one_mul, Nat.zero_add] at h
    rw [h]
    congr 1
    omega
  rw [hsplit,
    pdfLoop_append_no_cancel _ _ _ _ _ _ _
      (fun i hi => by
        rw [List.mem_range] at hi
        simp only [cancelCheck]
        exact decide_eq_false (by omega))]
  rw [foldl_pdfStep_closed]
  cases hnk : n - k with
  | zero => rfl
  | succ j =>
      rw [List.range'_succ]
      exact pdfLoop_cancel_head _ _ _ _ _ _ _ (decide_eq_true (le_refl k))

/-- Natural ceiling division agrees with the (n + b - 1) / b formula. -/
theorem ceil_div_nat (n b : ℕ) (hb : 0 < b) :
    ⌈(n : ℚ) / (b : ℚ)⌉₊ = (n + b - 1) / b := by
  have hb' : (0 : ℚ) < (b : ℚ) := by exact_mod_cast hb
  apply le_antisymm
  · rw [Nat.ceil_le, div_le_iff hb']
    have h2 := Nat.div_add_mod (n + b - 1) b
    have h3 : (n + b - 1) % b < b := Nat.mod_lt _ hb
    have h1 : n ≤ b * ((n + b - 1) / b) := by omega
    have h4 : (n : ℚ) ≤ ((b * ((n + b - 1) / b) : ℕ) : ℚ) := by exact_mod_cast h1
    calc (n : ℚ) ≤ ((b * ((n + b - 1) / b) : ℕ) : ℚ) := h4
      _ = (((n + b - 1) / b : ℕ) : ℚ) * (b : ℚ) := by push_cast; ring
  · cases n with
    | zero =>
        have h0 : (0 + b - 1) / b = 0 := Nat.div_eq_of_lt (by omega)
        rw [h0]
        exact Nat.zero_le _
    | succ m =>
        by_contra hlt
        push_neg at hlt
        have hk : (m + 1 + b - 1) / b = m / b + 1 := by
          rw [show m + 1 + b - 1 = m + b from by omega, Nat.add_div_right _ hb]
        rw [hk] at hlt
        have h2 : ⌈((m + 1 : ℕ) : ℚ) / (b : ℚ)⌉₊ ≤ m / b := by omega
        rw [Nat.ceil_le, div_le_iff hb'] at h2
        have h3 : m + 1 ≤ m / b * b := by exact_mod_cast h2
        have h5 : m / b * b ≤ m := Nat.div_mul_le_self m b
        omega

/-- The pages emitted over a full export: ceiling division of the row
count by the page capacity (the last, possibly partial, page is emitted by
c.save() exactly when a badge was drawn on it). -/
theorem pagesEmitted_closed (cols rows n : ℕ) (hc : 1 ≤ cols) (hr : 1 ≤ rows) :
    pagesEmitted (export_pdf cols rows n none) = (n + cols * rows - 1) / (cols * rows) := by
  have hb : 0 < cols * rows := Nat.mul_pos hc hr
  rw [export_pdf_none_closed, pagesEmitted]
  cases n with
  | zero =>
      simp [pagesBefore]
      exact (Nat.div_eq_of_lt (by omega)).symm
  | succ m =>
      simp only [newPageAfter_last, pagesBefore_end _ _ hb]
      simp only [Nat.add_sub_cancel]
      have hpos : decide (0 < m + 1) = true := by simp
      rw [hpos]
      simp only [Bool.not_false, Bool.and_true, if_true]
      rw [show m + 1 + cols * rows - 1 = m + cols * rows from by omega,
        Nat.add_div_right _ hb]

/-- C1: the grid packing of export_pdf.  Badge i is placed from
pageLocalIndex = i mod badgesPerPage at column pageLocalIndex mod cols and
row pageLocalIndex div cols of page i div badgesPerPage (with
badgesPerPage = cols * rows), and the number of emitted pages equals
ceil(rowCount / badgesPerPage) for every rowCount ≥ 0. -/
theorem C1_grid_pagination (cols rows n : ℕ) (hc : 1 ≤ cols) (hr : 1 ≤ rows) :
    pagesEmitted (export_pdf cols rows n none) = (n + cols * rows - 1) / (cols * rows) ∧
    pagesEmitted (export_pdf cols rows n none) = ⌈(n : ℚ) / ((cols * rows : ℕ) : ℚ)⌉₊ ∧
    (export_pdf cols rows n none).drawn =
      (List.range n).map (fun i =>
        (i, i / (cols * rows), i % (cols * rows) % cols, i % (cols * rows) / cols)) := by
  have hb : 0 < cols * rows := Nat.mul_pos hc hr
  refine ⟨pagesEmitted_closed cols rows n hc hr, ?_, ?_⟩
  · rw [pagesEmitted_closed cols rows n hc hr, ceil_div_nat n (cols * rows) hb]
  · rw [export_pdf_none_closed, drawn_closed]
    apply List.map_congr_left
    intro i hi
    rw [List.mem_range] at hi
    rw [pagesBefore_lt _ _ _ hb hi]

/-- C1 witness: the spec scenario cols = 2, rows = 4, rowCount = 10 gives
2 pages, badge 7 on page 0 at column 1, row 3, and badge 8 on page 1 at
column 0, row 0. -/
theorem C1_grid_pagination_witness :
    1 ≤ 2 ∧ 1 ≤ 4 ∧
    pagesEmitted (export_pdf 2 4 10 none) = 2 ∧
    (export_pdf 2 4 10 none).drawn.getD 7 (0, 0, 0, 0) = (7, 0, 1, 3) ∧
    (export_pdf 2 4 10 none).drawn.getD 8 (0, 0, 0, 0) = (8, 1, 0, 0) := by
  have h := C1_grid_pagination 2 4 10 (by norm_num) (by norm_num)
  refine ⟨by norm_num, by norm_num, ?_, ?_, ?_⟩
  · rw [h.1]
  · rw [h.2.2]
    rfl
  · rw [h.2.2]
    rfl

/-- C3: in a never-cancelled export of n rows, on_progress is called
exactly n times, once per row in row order, with the strictly increasing
arguments 1, 2, …, n. -/
theorem C3_progress (cols rows n : ℕ) (f : ℕ → Bool) (hf : ∀ i, f i = false) :
    (export_pdf cols rows n (some f)).progressCalls = (List.range n).map (fun k => k + 1) ∧
    (export_pdf cols rows n (some f)).progressCalls.length = n ∧
    (export_pdf cols rows n (some f)).progressCalls.Pairwise (fun a b => a < b) := by
  have h1 : (export_pdf cols rows n (some f)).progressCalls =
      (List.range n).map (fun k => k + 1) := by
    rw [export_pdf, pdfLoop_eq_foldl (cols * rows) cols n (some f) (fun i => hf i),
      foldl_pdfStep_closed, progress_closed]
  refine ⟨h1, by rw [h1]; simp, ?_⟩
  rw [h1]
  exact (List.pairwise_lt_range n).map _ (fun a b hab => by omega)

/-- C3 witness: a three-row export with a never-true cancellation callback
reports progress 1, 2, 3. -/
theorem C3_progress_witness :
    (export_pdf 2 4 3 (some (fun _ => false))).progressCalls = [1, 2, 3] := by
  have h := C3_progress 2 4 3 (fun _ => false) (fun _ => rfl)
  rw [h.1]
  rfl

/-- C4 (amended): the driver polls is_cancelled before each row, so a
cancellation request that starts firing at the poll before row k (0-based;
rows 0..k-1 completed) renders and places exactly those k rows, never
interrupts a row mid-render, and calls on_progress exactly k times with
arguments 1..k.  The web export task of start_pdf_export, however, passes
no is_cancelled callback to export_pdf, so it cannot be cancelled: its
terminal status is "done" on success and "error" on exception, never
"cancelled", and it always renders all n rows. -/
theorem C4_cancellation (cols rows n k : ℕ) (hk : k ≤ n) :
    (export_pdf cols rows n (some (fun i => decide (k ≤ i)))).drawn.map
        (fun q => q.1) = List.range k ∧
    (export_pdf cols rows n (some (fun i => decide (k ≤ i)))).drawn.length = k ∧
    (export_pdf cols rows n (some (fun i => decide (k ≤ i)))).progressCalls =
      (List.range k).map (fun j => j + 1) ∧
    (∀ raises : Bool,
      (run_export cols rows n raises).1 = if raises then "error" else "done") ∧
    (∀ raises : Bool, (run_export cols rows n raises).1 ≠ "cancelled") ∧
    ((run_export cols rows n false).2).drawn.length = n := by
  have hclosed := export_pdf_cancelFrom_closed cols rows n k hk
  have hdrawn : (export_pdf cols rows n (some (fun i => decide (k ≤ i)))).drawn =
      (List.range k).map (fun i =>
        (i, pagesBefore (cols * rows) n i, i % (cols * rows) % cols,
          i % (cols * rows) / cols)) := by
    rw [hclosed, drawn_closed]
  refine ⟨?_, ?_, ?_, ?_, ?_, ?_⟩
  · rw [hdrawn, List.map_map]
    show List.map (fun i => i) (List.range k) = List.range k
    simp
  · rw [hdrawn]
    simp
  · rw [hclosed, progress_closed]
  · intro raises
    cases raises <;> rfl
  · intro raises
    cases raises
    · show ("done" : String) ≠ "cancelled"
      decide
    · show ("error" : String) ≠ "cancelled"
      decide
  · show (export_pdf cols rows n none).drawn.length = n
    rw [export_pdf_none_closed, drawn_closed]
    simp

/-- C4 counterexample: the web endpoint start_pdf_export supplies no
is_cancelled callback to export_pdf, and no code path writes a "cancelled"
task status: with 2 data rows the task renders both rows and terminates
with status "done" — the claimed terminal state Cancelled is unreachable
for the cited export task. -/
theorem C4_web_task_never_cancelled :
    (run_export 2 4 2 false).1 = "done" ∧
    (run_export 2 4 2 false).1 ≠ "cancelled" ∧
    ((run_export 2 4 2 false).2).drawn.length = 2 := by
  refine ⟨rfl, by decide, ?_⟩
  show (export_pdf 2 4 2 none).drawn.length = 2
  decide

/-- C4 witness: three rows with cancellation firing from the poll before
row 1 render exactly one row and report progress once. -/
theorem C4_cancellation_witness :
    1 ≤ 3 ∧
    (export_pdf 2 4 3 (some (fun i => decide (1 ≤ i)))).drawn.length = 1 ∧
    (export_pdf 2 4 3 (some (fun i => decide (1 ≤ i)))).progressCalls = [1] := by
  have h := C4_cancellation 2 4 3 1 (by norm_num)
  refine ⟨by norm_num, h.2.1, ?_⟩
  rw [h.2.2.1]
  rfl

/-- C7 counterexample: with a positive 11 × 1 template and a positive cell
of width 10 and height 1/2, the max(cell_h, 1) guard in the code distorts
the cell aspect ratio and the computed draw height 10/11 exceeds the cell
height 1/2 — the claim fails for positive cell heights below 1 (and its
"exactly one equals, the other strictly smaller" clause independently
fails at exact aspect ties, where both dimensions equal the cell). -/
theorem C7_counterexample :
    (0 : ℤ) < 11 ∧ (0 : ℤ) < 1 ∧ (0 : ℚ) < 10 ∧ (0 : ℚ) < 1 / 2 ∧
    ¬ ((fitBadgeInCell 11 1 10 (1 / 2)).2 ≤ (1 / 2 : ℚ)) := by
  have h : fitBadgeInCell 11 1 10 (1 / 2) = (10, 10 / 11) := by
    have hmaxh : (max (1 : ℤ) 1) = 1 := max_self 1
    have hmaxc : max (1 / 2 : ℚ) 1 = 1 := max_eq_right (by norm_num)
    simp only [fitBadgeInCell, hmaxh, hmaxc]
    norm_num
  refine ⟨by norm_num, by norm_num, by norm_num, by norm_num, ?_⟩
  rw [h]
  norm_num

/-- C7 (amended): for a template with positive dimensions and a positive
cell with cellH ≥ 1 (the max(cell_h, 1) guard inert), the draw size
preserves the template aspect ratio exactly, is positive, fits inside the
cell on both axes, and at least one of drawW, drawH equals its cell
dimension.  At an exact aspect tie both equal their cell dimension, and
for 0 < cellH < 1 the cell can overflow, so this is as strong as the code
allows. -/
theorem C7_fit (w h : ℤ) (cw ch : ℚ) (hw : 0 < w) (hh : 0 < h)
    (hcw : 0 < cw) (hch : 1 ≤ ch) :
    (fitBadgeInCell w h cw ch).1 / (fitBadgeInCell w h cw ch).2 = (w : ℚ) / (h : ℚ) ∧
    0 < (fitBadgeInCell w h cw ch).1 ∧
    0 < (fitBadgeInCell w h cw ch).2 ∧
    (fitBadgeInCell w h cw ch).1 ≤ cw ∧
    (fitBadgeInCell w h cw ch).2 ≤ ch ∧
    ((fitBadgeInCell w h cw ch).1 = cw ∨ (fitBadgeInCell w h cw ch).2 = ch) := by
  have hw' : (0 : ℚ) < (w : ℚ) := by exact_mod_cast hw
  have hh' : (0 : ℚ) < (h : ℚ) := by exact_mod_cast hh
  have ha : (0 : ℚ) < (w : ℚ) / (h : ℚ) := div_pos hw' hh'
  have hch0 : (0 : ℚ) < ch := lt_of_lt_of_le one_pos hch
  have hmaxh : (max h 1 : ℤ) = h := max_eq_left (by omega)
  have hmaxc : max ch 1 = ch := max_eq_left hch
  have hfit : fitBadgeInCell w h cw ch =
      if (w : ℚ) / (h : ℚ) > cw / ch then (cw, cw / ((w : ℚ) / (h : ℚ)))
      else (ch * ((w : ℚ) / (h : ℚ)), ch) := by
    simp only [fitBadgeInCell, hmaxh, hmaxc]
  by_cases hgt : (w : ℚ) / (h : ℚ) > cw / ch
  · rw [hfit, if_pos hgt]
    refine ⟨?_, hcw, div_pos hcw ha, le_refl _, ?_, Or.inl rfl⟩
    · show cw / (cw / ((w : ℚ) / (h : ℚ))) = (w : ℚ) / (h : ℚ)
      rw [div_div_eq_mul_div, mul_comm, mul_div_assoc, div_self hcw.ne', mul_one]
    · show cw / ((w : ℚ) / (h : ℚ)) ≤ ch
      rw [div_le_iff ha]
      have h2 : cw < (w : ℚ) / (h : ℚ) * ch := (div_lt_iff hch0).1 hgt
      rw [mul_comm ch ((w : ℚ) / (h : ℚ))]
      exact h2.le
  · rw [hfit, if_neg hgt]
    push_neg at hgt
    refine ⟨?_, mul_pos hch0 ha, hch0, ?_, le_refl _, Or.inr rfl⟩
    · show ch * ((w : ℚ) / (h : ℚ)) / ch = (w : ℚ) / (h : ℚ)
      exact mul_div_cancel_left₀ _ hch0.ne'
    · show ch * ((w : ℚ) / (h : ℚ)) ≤ cw
      have h3 : ch * ((w : ℚ) / (h : ℚ)) ≤ ch * (cw / ch) :=
        mul_le_mul_of_nonneg_left hgt hch0.le
      rw [mul_comm ch (cw / ch), div_mul_cancel₀ cw hch0.ne'] at h3
      exact h3

/-- C7 witness: a 100 × 50 template in a 200 × 80 cell fits both axes and
saturates the height. -/
theorem C7_fit_witness :
    (0 : ℤ) < 100 ∧ (0 : ℤ) < 50 ∧ (0 : ℚ) < 200 ∧ (1 : ℚ) ≤ 80 ∧
    (fitBadgeInCell 100 50 200 80).1 ≤ 200 ∧
    (fitBadgeInCell 100 50 200 80).2 ≤ 80 ∧
    ((fitBadgeInCell 100 50 200 80).1 = 200 ∨ (fitBadgeInCell 100 50 200 80).2 = 80) := by
  have hf := C7_fit 100 50 200 80 (by norm_num) (by norm_num) (by norm_num) (by norm_num)
  exact ⟨by norm_num, by norm_num, by norm_num, by norm_num,
    hf.2.2.2.1, hf.2.2.2.2.1, hf.2.2.2.2.2⟩

end BadgeApp
